import Mathlib

/-!
Verification of the pairwise profile-comparison engine in
src/inStrain/readComparer.py.

The definitions below are a shallow embedding of the Python source:
pandas rows become structures, NaN-able columns become Option or sum
types, dict lookups become association-list lookups, and operations that
can raise (ZeroDivisionError, KeyError) return Except.  Rational numbers
stand in for Python floats.  Definitions follow the source function they
embed; the few definitions written from the specification text instead of
the source are clearly marked in their doc comments.
-/

namespace InStrainRC

deriving instance DecidableEq for Except

/-- Nucleotide bases, the per-base count columns of the variant tables. -/
inductive Base where
  | A | C | T | G
deriving DecidableEq

/-- One row of a cumulative SNV table (readComparer.py uses columns
position, mm, conBase, refBase, varBase, baseCoverage, A, C, T, G and a
minor-allele-count column named either allele_count or morphia). -/
structure SNPRow where
  pos : Nat
  mm : Nat
  conBase : Base
  refBase : Base
  varBase : Base
  baseCoverage : Nat
  A : Nat
  C : Nat
  T : Nat
  G : Nat
  allele_count : Nat
deriving DecidableEq

/-- Column lookup row[base + suffix] used by call_pop_snps. -/
def SNPRow.counts (r : SNPRow) : Base → Nat
  | .A => r.A
  | .C => r.C
  | .T => r.T
  | .G => r.G

/-- One row of the outer merge of the two per-sample tables on position
(readComparer.py line 844).  A side that is absent from the merge has all
of its columns equal to NaN; we represent the three shapes explicitly.
An outer join never produces a row with both sides absent. -/
inductive MergedRec where
  | both (r1 r2 : SNPRow)
  | left (r1 : SNPRow)
  | right (r2 : SNPRow)
deriving DecidableEq

/-- call_con_snps (readComparer.py line 854): row[conBase_1] != row[conBase_2].
For a one-sided row the missing side is NaN and NaN != x is True in pandas. -/
def call_con_snps : MergedRec → Bool
  | .both r1 r2 => decide (r1.conBase ≠ r2.conBase)
  | .left _ => true
  | .right _ => true

/-- is_present (readComparer.py line 860):
(counts >= model[total]) and ((float(counts) / total) >= min_freq).
The Python "and" short-circuits, so the division is only reached when the
first conjunct holds; dividing by a zero total raises (error ()).
The null model itself is built by inStrain.profileUtilities.generate_snp_model,
which is not part of this file s source; per the specification (section 4.1)
it is a total depth-to-threshold function (depths outside the reference
table reuse the nearest defined depth), so it is taken here as an arbitrary
total function Nat → Nat. -/
def is_presentE (counts total : Nat) (model : Nat → Nat) (min_freq : ℚ) : Except Unit Bool :=
  if model total ≤ counts then
    if total = 0 then .error ()
    else .ok (decide (min_freq ≤ (counts : ℚ) / (total : ℚ)))
  else .ok false

/-- Which minor-allele-count column the merged table carries
(readComparer.py lines 914 and 919 check allele_count_1 / morphia_1). -/
inductive MinorCol where
  | alleleCount | morphia | neither
deriving DecidableEq

/-- call_pop_snps (readComparer.py lines 866-924), applied to one merged row.
The NaN tests conBase_i != conBase_i of the source select the one-sided
constructors.  The first presence check of the both-sided branch is wrapped
in try/except in the source (the exception is printed and execution falls
through), so an error there is swallowed; the remaining checks propagate
errors. -/
def call_pop_snps (mcol : MinorCol) (model : Nat → Nat) (min_freq : ℚ) :
    MergedRec → Except Unit Bool
  | .both r1 r2 =>
    if r1.conBase = r2.conBase then .ok false
    else
      match is_presentE (r2.counts r1.conBase) r2.baseCoverage model min_freq with
      | .ok true => .ok false
      | _ =>
        match is_presentE (r1.counts r2.conBase) r1.baseCoverage model min_freq with
        | .error e => .error e
        | .ok true => .ok false
        | .ok false =>
          match mcol with
          | .alleleCount =>
            if 1 < r1.allele_count ∧ 1 < r2.allele_count ∧ r1.varBase = r2.varBase
            then .ok false else .ok true
          | .morphia =>
            if 1 < r1.allele_count ∧ 1 < r2.allele_count ∧ r1.varBase = r2.varBase
            then .ok false else .ok true
          | .neither => .ok true
  | .left r1 =>
    match is_presentE (r1.counts r1.refBase) r1.baseCoverage model min_freq with
    | .ok true => .ok false
    | .ok false => .ok true
    | .error e => .error e
  | .right r2 =>
    match is_presentE (r2.counts r2.refBase) r2.baseCoverage model min_freq with
    | .ok true => .ok false
    | .ok false => .ok true
    | .error e => .error e

/-- Written from the specification wording of the claim, not from the source:
for the sentinel side (the sample lacking a called variant row), the
specification reconstructs a sentinel row whose consensus equals the
reference and whose whole depth is attributed to the reference base
(spec section 4.3 step 2), and asks whether the count that row holds for
the OTHER samples consensus base clears the present test at the sentinel
samples depth. -/
def claim_sentinel_not_snp (sentinelDepth : Nat) (refB otherCon : Base)
    (model : Nat → Nat) (min_freq : ℚ) : Except Unit Bool :=
  is_presentE (if otherCon = refB then sentinelDepth else 0) sentinelDepth model min_freq

/-- kwargs.get(key, default) over the keyword-argument dictionary. -/
def kwargs_get (kwargs : List (String × ℚ)) (key : String) (dflt : ℚ) : ℚ :=
  match kwargs.find? (fun e => e.1 == key) with
  | some e => e.2
  | none => dflt

/-- compare_scaffold line 540: min_freq = kwargs.get(min_freq, 5). -/
def compare_scaffold_min_freq (kwargs : List (String × ℚ)) : ℚ :=
  kwargs_get kwargs "min_freq" 5

/-- pandas drop_duplicates(subset=key, keep=last): a row survives exactly
when no later row of the frame has the same key. -/
def dedupKeepLastBy {α κ : Type} [DecidableEq κ] (key : α → κ) : List α → List α
  | [] => []
  | r :: rs =>
    if ∃ s ∈ rs, key s = key r then dedupKeepLastBy key rs
    else r :: dedupKeepLastBy key rs

/-- Per-mm subsetting of one cumulative SNV table inside
_calc_SNP_count_alternate (lines 827-835): restrict to positions covered in
both samples, then drop_duplicates(subset=position, keep=last).  The table
was sorted by mm in _get_SNP_table, so the kept row per position is the one
with the largest mm in the whole table; rows whose mm exceeds the level
being evaluated are NOT excluded.  (The source also drops the mm column
afterwards; here the field is simply ignored downstream.) -/
def snp_table_subset (table : List SNPRow) (covs : Finset Nat) : List SNPRow :=
  dedupKeepLastBy (fun r => r.pos) (table.filter (fun r => decide (r.pos ∈ covs)))

/-- Written from the specification wording of the claim, not from the source:
restrict the table to positions in the overlap set AND to rows whose own mm
is at most the level being evaluated, deduplicated per position preferring
the highest qualifying mm. -/
def claim_snp_table_subset (table : List SNPRow) (covs : Finset Nat) (mm : Nat) :
    List SNPRow :=
  dedupKeepLastBy (fun r => r.pos)
    (table.filter (fun r => decide (r.pos ∈ covs) && decide (r.mm ≤ mm)))

/-- A sparse pandas Series over integer positions: an index set and the
stored values.  Only values at indexed positions are meaningful. -/
structure Series where
  supp : Finset Nat
  val : Nat → Nat

/-- Reading a position with missing entries treated as 0 (fill_value=0). -/
def Series.get (s : Series) (p : Nat) : Nat :=
  if p ∈ s.supp then s.val p else 0

/-- Series.add(other, fill_value=0): union of the indexes, pointwise sum. -/
def Series.add (s t : Series) : Series :=
  ⟨s.supp ∪ t.supp, fun p => s.get p + t.get p⟩

/-- pd.Series(), the empty accumulator of _calc_mm2overlap. -/
def Series.emptyS : Series := ⟨∅, fun _ => 0⟩

/-- set(cov[(cov >= min_cov)].index): the indexed positions whose value
reaches the minimum coverage. -/
def Series.covSet (s : Series) (min_cov : Nat) : Finset Nat :=
  s.supp.filter (fun p => min_cov ≤ s.val p)

/-- Dictionary lookup covT[mm] over the mm -> depth-series table. -/
def lookupT (covT : List (Nat × Series)) (mm : Nat) : Option Series :=
  (covT.find? (fun e => decide (e.1 = mm))).map (fun e => e.2)

/-- One accumulation step of _calc_mm2overlap (lines 640-643):
if mm in covT: cov = cov.add(covT[mm], fill_value=0). -/
def addLevel (covT : List (Nat × Series)) (cov : Series) (mm : Nat) : Series :=
  match lookupT covT mm with
  | some s => cov.add s
  | none => cov

/-- What one iteration of the _calc_mm2overlap loop computes at one mm
level (lines 645-663). -/
structure LevelCalc where
  T1 : Finset Nat
  T2 : Finset Nat
  coveredInEither : Finset Nat
  coveredInBoth : Finset Nat
  cov : ℚ

/-- The body of the mm loop of _calc_mm2overlap (lines 639-663), carrying
the two running cumulative coverage series. -/
def mm2overlapLoop (covT1 covT2 : List (Nat × Series)) (min_cov : Nat) :
    List Nat → Series → Series → List (Nat × LevelCalc)
  | [], _, _ => []
  | mm :: rest, cov1, cov2 =>
    let cov1 := addLevel covT1 cov1 mm
    let cov2 := addLevel covT2 cov2 mm
    let T1 := cov1.covSet min_cov
    let T2 := cov2.covSet min_cov
    let coveredInEither := T1 ∪ T2
    let coveredInBoth := T1 ∩ T2
    let cov : ℚ :=
      if 0 < coveredInEither.card
      then (coveredInBoth.card : ℚ) / (coveredInEither.card : ℚ)
      else 0
    (mm, ⟨T1, T2, coveredInEither, coveredInBoth, cov⟩) ::
      mm2overlapLoop covT1 covT2 min_cov rest cov1 cov2

/-- sorted(list(set(covT1.keys()).union(set(covT2.keys())))) of line 636. -/
def unionKeys (covT1 covT2 : List (Nat × Series)) : List Nat :=
  List.insertionSort (· ≤ ·) ((covT1.map Prod.fst ++ covT2.map Prod.fst).dedup)

/-- _calc_mm2overlap (lines 619-665): returns mm2overlap (mm to the
both-covered position set) and mm2coverage (mm to the overlap fraction). -/
def calc_mm2overlap (covT1 covT2 : List (Nat × Series)) (min_cov : Nat) :
    List (Nat × Finset Nat) × List (Nat × ℚ) :=
  let L := mm2overlapLoop covT1 covT2 min_cov (unionKeys covT1 covT2)
    Series.emptyS Series.emptyS
  (L.map (fun e => (e.1, e.2.coveredInBoth)), L.map (fun e => (e.1, e.2.cov)))

/-- Cumulative depth of one sample at one position, counting every mm level
at or below the given one (the mathematical reading of the running
accumulation of _calc_mm2overlap). -/
def cumGet (covT : List (Nat × Series)) (mm p : Nat) : Nat :=
  ((covT.filter (fun e => decide (e.1 ≤ mm))).map (fun e => e.2.get p)).sum

/-- Index set of the cumulative series at one mm level. -/
def cumSupp (covT : List (Nat × Series)) (mm : Nat) : Finset Nat :=
  ((covT.filter (fun e => decide (e.1 ≤ mm))).map (fun e => e.2.supp)).foldr (· ∪ ·) ∅

/-- Positions of one sample whose cumulative depth at the level reaches the
minimum-coverage threshold. -/
def coveredSet (covT : List (Nat × Series)) (mm min_cov : Nat) : Finset Nat :=
  (cumSupp covT mm).filter (fun p => min_cov ≤ cumGet covT mm p)

/-- Proof-internal partial cumulative value: contributions of the levels in
an arbitrary processed set D. -/
def pGet (covT : List (Nat × Series)) (D : Finset Nat) (p : Nat) : Nat :=
  ((covT.filter (fun e => decide (e.1 ∈ D))).map (fun e => e.2.get p)).sum

/-- Proof-internal partial cumulative index set over a processed set D. -/
def pSupp (covT : List (Nat × Series)) (D : Finset Nat) : Finset Nat :=
  ((covT.filter (fun e => decide (e.1 ∈ D))).map (fun e => e.2.supp)).foldr (· ∪ ·) ∅

/-- Position of a merged row (the shared join key of the outer merge). -/
def MergedRec.pos : MergedRec → Nat
  | .both r1 _ => r1.pos
  | .left r1 => r1.pos
  | .right r2 => r2.pos

/-- pandas DataFrame.apply with a row function that can raise: the whole
apply raises as soon as the function raises on some row. -/
def mapE {α β : Type} (f : α → Except Unit β) : List α → Except Unit (List β)
  | [] => .ok []
  | a :: l =>
    match f a, mapE f l with
    | .ok b, .ok bs => .ok (b :: bs)
    | .error e, _ => .error e
    | .ok _, .error e => .error e

/-- pd.merge(s1_all, s2_all, on=position, how=outer) of line 844: left rows
in order, matched by position against the (position-deduplicated) right
table, followed by the unmatched right rows. -/
def outerMerge (l1 l2 : List SNPRow) : List MergedRec :=
  l1.map (fun r1 =>
    match l2.find? (fun r2 => decide (r2.pos = r1.pos)) with
    | some r2 => MergedRec.both r1 r2
    | none => MergedRec.left r1)
  ++ (l2.filter (fun r2 => decide (∀ r1 ∈ l1, r1.pos ≠ r2.pos))).map MergedRec.right

/-- One row of the Mdb frame produced by _calc_SNP_count_alternate: the
merged columns plus the two classification flags and the mm level. -/
structure MRow where
  merged : MergedRec
  consensus_SNP : Bool
  population_SNP : Bool
  mm : Nat
deriving DecidableEq

/-- The body of the mm iteration of _calc_SNP_count_alternate
(lines 821-849) for one (mm, overlap) entry: subset both tables, outer
merge, and apply the two SNP callers to every merged row.  The null model
(built by generate_snp_model outside this source) is a parameter. -/
def snp_block (t1 t2 : List SNPRow) (mm : Nat) (covs : Finset Nat)
    (mcol : MinorCol) (model : Nat → Nat) (min_freq : ℚ) : Except Unit (List MRow) :=
  mapE (fun rec => (call_pop_snps mcol model min_freq rec).map
      (fun b => ⟨rec, call_con_snps rec, b, mm⟩))
    (outerMerge (snp_table_subset t1 covs) (snp_table_subset t2 covs))

/-- _calc_SNP_count_alternate (lines 810-852): one block per mm level of
mm2overlap, concatenated. -/
def calc_SNP_count_alternate (t1 t2 : List SNPRow)
    (mm2overlap : List (Nat × Finset Nat)) (mcol : MinorCol) (model : Nat → Nat)
    (min_freq : ℚ) : Except Unit (List MRow) :=
  (mapE (fun e => snp_block t1 t2 e.1 e.2 mcol model min_freq) mm2overlap).map
    List.flatten

/-- One emitted row of the per-scaffold comparison table
(_update_overlap_table, lines 982-1016).  NaN ANI values are none. -/
structure OutRow where
  mm : Nat
  scaffold : String
  name1 : String
  name2 : String
  coverage_overlap : ℚ
  compared_bases_count : Nat
  percent_genome_compared : ℚ
  length : Nat
  consensus_SNPs : Nat
  population_SNPs : Nat
  conANI : Option ℚ
  popANI : Option ℚ
deriving DecidableEq

/-- mm2coverage[mm] lookup (the keys of mm2coverage and mm2overlap always
agree in the source; 0 is returned for a key that is absent). -/
def lookupQ (m : List (Nat × ℚ)) (mm : Nat) : ℚ :=
  match m.find? (fun e => decide (e.1 = mm)) with
  | some e => e.2
  | none => 0

/-- _update_overlap_table (lines 982-1016): one output row per mm level of
mm2overlap; conANI and popANI are NaN (none) when no bases were compared,
otherwise (bases - snps) / bases. -/
def update_overlap_table (scaffold : String) (mm2overlap : List (Nat × Finset Nat))
    (mm2coverage : List (Nat × ℚ)) (Mdb : List MRow) (name1 name2 : String)
    (mLen : Nat) : List OutRow :=
  mm2overlap.map (fun e =>
    let bases := e.2.card
    let mdb := Mdb.filter (fun r => decide (r.mm = e.1))
    let snps := (mdb.filter (fun r => r.consensus_SNP)).length
    let popsnps := (mdb.filter (fun r => r.population_SNP)).length
    { mm := e.1, scaffold := scaffold, name1 := name1, name2 := name2,
      coverage_overlap := lookupQ mm2coverage e.1,
      compared_bases_count := bases,
      percent_genome_compared := (bases : ℚ) / (mLen : ℚ),
      length := mLen,
      consensus_SNPs := snps,
      population_SNPs := popsnps,
      conANI := if bases = 0 then none
        else some (((bases : ℚ) - (snps : ℚ)) / (bases : ℚ)),
      popANI := if bases = 0 then none
        else some (((bases : ℚ) - (popsnps : ℚ)) / (bases : ℚ)) })

/-- One row of the concatenated comparison table as read back by
calc_cov_ani: only the columns that function touches. -/
structure CRow where
  scaffold : String
  name1 : String
  name2 : String
  mm : Nat
  popANI : Option ℚ
  compared_bases_count : Nat
deriving DecidableEq

/-- The drop_duplicates subset of calc_cov_ani: scaffold, name1, name2. -/
def crowKey (r : CRow) : String × String × String :=
  (r.scaffold, r.name1, r.name2)

/-- Ordering used by sort_values(mm) in calc_cov_ani. -/
def mmLe (a b : CRow) : Prop := a.mm ≤ b.mm

instance : DecidableRel mmLe := fun a b => Nat.decLe a.mm b.mm

instance : IsTotal CRow mmLe := ⟨fun a b => Nat.le_total a.mm b.mm⟩

instance : IsTrans CRow mmLe := ⟨fun _ _ _ => Nat.le_trans⟩

/-- Cdb[Cdb.mm <= g_mm].sort_values(mm).drop_duplicates(
subset=[scaffold, name1, name2], keep=last) of calc_cov_ani line 179. -/
def calc_cov_ani_kept (Cdb : List CRow) (g_mm : Nat) : List CRow :=
  dedupKeepLastBy crowKey
    (List.insertionSort mmLe (Cdb.filter (fun r => decide (r.mm ≤ g_mm))))

/-- calc_cov_ani (lines 171-188).  g_ani and g_cov are read from kwargs by
the source but never used in the computation; tcb is the total compared
base count of the kept rows; the popANI numerator maps NaN popANI rows
(the a == a test) to 0. -/
def calc_cov_ani (Cdb : List CRow) (bin_length : ℚ) (g_mm : Nat) : Option ℚ × ℚ :=
  let db := calc_cov_ani_kept Cdb g_mm
  let tcb : Nat := (db.map (fun r => r.compared_bases_count)).sum
  (if tcb = 0 then none
   else some ((db.map (fun r => match r.popANI with
       | some a => a * (r.compared_bases_count : ℚ)
       | none => 0)).sum / (tcb : ℚ)),
   (tcb : ℚ) / bin_length)

/-- Scaffold-to-overlap payload held in the third slot of a scaffold
profile (pair2mm2covOverlap of compare_scaffold, keyed by sample pair). -/
abbrev CovStore := List (String × List (Nat × Finset Nat))

/-- One element of the ScaffProfiles list built by compare_scaffolds:
either the 4-element return of compare_scaffold (its last slot is the
scaffold name, or skip_ plus the name for a skipped scaffold), or the
pd.DataFrame(Failed=[True]) marker that scaffold_profile_wrapper returns
when compare_scaffold raised (lines 450-461). -/
inductive ScaffProfile where
  | quad (Cdb : List OutRow) (Mdb : List MRow) (cov : CovStore) (tag : String)
  | failedDF
deriving DecidableEq

/-- Outcome of scheduling one scaffold on a worker pool. -/
inductive PassOutcome where
  | ok (Cdb : List OutRow) (Mdb : List MRow) (cov : CovStore)
  | skip
  | poison
  | lost

/-- What one scaffold contributes to ScaffProfiles: a future that completed
yields the profile the wrapper returned (a tagged quad, a skip quad, or
the Failed marker); a future that itself raised yields nothing, because
the bare except at line 396 of the first pass swallows it. -/
def outcomeProfile (scaffold : String) : PassOutcome → Option ScaffProfile
  | .ok c m v => some (.quad c m v scaffold)
  | .skip => some (.quad [] [] [] ("skip_" ++ scaffold))
  | .poison => some .failedDF
  | .lost => none

/-- Reading s[3] of a profile: a KeyError for the Failed marker DataFrame,
whose only column is Failed. -/
def profileTag : ScaffProfile → Except String String
  | .quad _ _ _ tag => .ok tag
  | .failedDF => .error "KeyError: 3"

/-- Line 406: skipped = set(s[3][5:] for s in ScaffProfiles
if s[3][:4] == skip). -/
def computeSkipped : List ScaffProfile → Except String (List String)
  | [] => .ok []
  | p :: ps =>
    match profileTag p, computeSkipped ps with
    | .ok tag, .ok rest =>
      .ok (if tag.take 4 = "skip" then tag.drop 5 :: rest else rest)
    | .error e, _ => .error e
    | .ok _, .error e => .error e

/-- Line 409: the s[3] values of all collected profiles. -/
def computeTags : List ScaffProfile → Except String (List String)
  | [] => .ok []
  | p :: ps =>
    match profileTag p, computeTags ps with
    | .ok tag, .ok rest => .ok (tag :: rest)
    | .error e, _ => .error e
    | .ok _, .error e => .error e

/-- Retry loop (lines 414-419): results = f.result() has no try/except
there, so a retry future that raises crashes the whole run; completed
retry futures are appended like first-pass ones. -/
def retryCollect (retry : String → PassOutcome) :
    List String → Except String (List ScaffProfile)
  | [] => .ok []
  | s :: ss =>
    match retry s with
    | .lost => .error "uncaught exception in retry pass"
    | .ok c m v =>
      (retryCollect retry ss).map (fun rest => .quad c m v s :: rest)
    | .skip =>
      (retryCollect retry ss).map (fun rest => .quad [] [] [] ("skip_" ++ s) :: rest)
    | .poison =>
      (retryCollect retry ss).map (fun rest => .failedDF :: rest)

/-- Final collection loop (lines 421-444): the Failed marker has length 1,
so the len(s) != 4 check drops it here; skip quads are dropped; the other
quads contribute their tables keyed by scaffold. -/
def finalRows : List ScaffProfile →
    List (List OutRow) × List (List MRow) × List (String × CovStore)
  | [] => ([], [], [])
  | .failedDF :: ps => finalRows ps
  | .quad c m v tag :: ps =>
    let rest := finalRows ps
    if tag.take 4 = "skip" then rest
    else (c :: rest.1, m :: rest.2.1, (tag, v) :: rest.2.2)

/-- compare_scaffolds (lines 368-444) with the per-scaffold work
abstracted into the outcome of the first pass and of the retry pass.
After collecting the first pass, the skipped names are computed (s[3] on
every profile), then the tag set, then failed = requested minus tags minus
skipped; a non-empty failed set is retried exactly once on the thread
pool and the retry results are appended; finally the per-scaffold tables
are concatenated (pd.concat raises on an empty table list, line 444). -/
def compare_scaffoldsM (scaffolds : List String)
    (first retry : String → PassOutcome) :
    Except String (List OutRow × List MRow × List (String × CovStore)) :=
  let profiles := scaffolds.filterMap (fun s => outcomeProfile s (first s))
  match computeSkipped profiles with
  | .error e => .error e
  | .ok skipped =>
    match computeTags profiles with
    | .error e => .error e
    | .ok tags =>
      let failed := scaffolds.filter
        (fun s => decide (s ∉ tags) && decide (s ∉ skipped))
      match (if failed.isEmpty then .ok [] else retryCollect retry failed) with
      | .error e => .error e
      | .ok retried =>
        let col := finalRows (profiles ++ retried)
        if col.1.isEmpty then .error "ValueError: No objects to concatenate"
        else .ok (col.1.flatten, col.2.1.flatten, col.2.2)

/-- What main produces: either the greedy-unavailable early return or the
stored comparison outputs. -/
inductive MainResult where
  | greedyUnavailable
  | stored (Cdb : List OutRow) (Mdb : List MRow) (cov : List (String × CovStore))

/-- main (lines 28-61) after parse_validate: with the greedy flag set it
prints that greedy clustering is not available and returns at once — the
greedy_main call below the return is dead code — otherwise it runs
compare_scaffolds and stores the results. -/
def mainModel (greedy_clustering : Bool) (scaffolds : List String)
    (first retry : String → PassOutcome) : Except String MainResult :=
  if greedy_clustering then .ok .greedyUnavailable
  else
    match compare_scaffoldsM scaffolds first retry with
    | .error e => .error e
    | .ok r => .ok (.stored r.1 r.2.1 r.2.2)

lemma call_pop_snps_right (mcol : MinorCol) (model : Nat → Nat) (min_freq : ℚ)
    (r2 : SNPRow) :
    call_pop_snps mcol model min_freq (.right r2)
      = (is_presentE (r2.counts r2.refBase) r2.baseCoverage model min_freq).map not := by
  cases h : is_presentE (r2.counts r2.refBase) r2.baseCoverage model min_freq with
  | ok b => cases b <;> simp [call_pop_snps, h, Except.map]
  | error e => simp [call_pop_snps, h, Except.map]

lemma call_pop_snps_left (mcol : MinorCol) (model : Nat → Nat) (min_freq : ℚ)
    (r1 : SNPRow) :
    call_pop_snps mcol model min_freq (.left r1)
      = (is_presentE (r1.counts r1.refBase) r1.baseCoverage model min_freq).map not := by
  cases h : is_presentE (r1.counts r1.refBase) r1.baseCoverage model min_freq with
  | ok b => cases b <;> simp [call_pop_snps, h, Except.map]
  | error e => simp [call_pop_snps, h, Except.map]

/-- C1 counterexample: a merged row whose sample-1 side is absent, with
sample 2 having reference A, consensus C and counts A=5, C=5 at depth 10.
With threshold 1 and minimum frequency 1/20 the code calls the position
not a SNP (the reference base is still present in sample 2), while the
condition stated by the claim (the sentinel count of the other samples
consensus base, which is 0, passing the present test at the sentinel
depth) is false, so the claimed equivalence fails. -/
theorem pop_snp_sentinel_counterexample :
    ¬ (call_pop_snps MinorCol.neither (fun _ => 1) (1/20)
          (MergedRec.right ⟨0, 0, .C, .A, .C, 10, 5, 5, 0, 0, 2⟩) = .ok false
        ↔ claim_sentinel_not_snp 10 Base.A Base.C (fun _ => 1) (1/20) = .ok true) := by
  have hA : is_presentE 5 10 (fun _ => 1) (1/20) = .ok true := by
    norm_num [is_presentE]
  have hB : is_presentE 0 10 (fun _ => 1) (1/20) = .ok false := by
    norm_num [is_presentE]
  have hcode : call_pop_snps MinorCol.neither (fun _ => 1) (1/20)
      (MergedRec.right ⟨0, 0, .C, .A, .C, 10, 5, 5, 0, 0, 2⟩) = .ok false := by
    rw [call_pop_snps_right]
    show (is_presentE 5 10 (fun _ => 1) (1/20)).map not = .ok false
    rw [hA]
    rfl
  have hclaim : claim_sentinel_not_snp 10 Base.A Base.C (fun _ => 1) (1/20) = .ok false := by
    show is_presentE (if Base.C = Base.A then 10 else 0) 10 (fun _ => 1) (1/20) = .ok false
    rw [if_neg (by decide)]
    exact hB
  intro h
  have := h.mp hcode
  rw [hclaim] at this
  exact absurd this (by decide)

/-- C1 (amended): for a merged position record with exactly one variant row
missing, the population-SNP classifier returns not-a-SNP exactly when the
NON-sentinel samples read count for its own REFERENCE base clears the
present test at the non-sentinel samples depth; the sentinel samples
counts and depth are never consulted. -/
theorem pop_snp_sentinel_amended (model : Nat → Nat) (min_freq : ℚ)
    (r1 r2 : SNPRow) (mcol : MinorCol) :
    call_pop_snps mcol model min_freq (.right r2)
      = (is_presentE (r2.counts r2.refBase) r2.baseCoverage model min_freq).map not
    ∧ call_pop_snps mcol model min_freq (.left r1)
      = (is_presentE (r1.counts r1.refBase) r1.baseCoverage model min_freq).map not :=
  ⟨call_pop_snps_right mcol model min_freq r2, call_pop_snps_left mcol model min_freq r1⟩

/-- C9: at zero total depth the present test short-circuits before the
division: since every threshold of the detection model is at least 1
(spec section 4.1: the chance probability of seeing at least 0 reads is 1,
above any FDR) and a position with zero depth has zero count, the first
conjunct is already false, so the test returns normally with not-present. -/
theorem zero_depth_not_present (model : Nat → Nat) (min_freq : ℚ) (counts : Nat)
    (hm : 1 ≤ model 0) (hc : counts = 0) :
    is_presentE counts 0 model min_freq = .ok false := by
  subst hc
  have h : ¬ (model 0 ≤ 0) := by omega
  simp [is_presentE, h]

theorem zero_depth_not_present_witness :
    1 ≤ (fun _ : Nat => 1) 0 ∧ is_presentE 0 0 (fun _ => 1) (1/20) = .ok false :=
  ⟨by decide, zero_depth_not_present (fun _ => 1) (1/20) 0 (by decide) rfl⟩

/-- C8: when the caller supplies no minimum-variant-frequency option,
compare_scaffold falls back to 5, not to the documented 0.05; a minimum
frequency of 5 makes the present test unsatisfiable for any sane counts
(count/depth is at most 1), so no base is ever detected as present. -/
theorem min_freq_default_bug :
    compare_scaffold_min_freq [] = 5 ∧ compare_scaffold_min_freq [] ≠ 1/20 ∧
    ∀ (counts total : Nat) (model : Nat → Nat), counts ≤ total →
      is_presentE counts total model (compare_scaffold_min_freq []) ≠ .ok true := by
  refine ⟨rfl, by norm_num [compare_scaffold_min_freq, kwargs_get], ?_⟩
  intro counts total model hct
  have h5 : compare_scaffold_min_freq [] = 5 := rfl
  rw [h5]
  unfold is_presentE
  by_cases h1 : model total ≤ counts
  · by_cases h0 : total = 0
    · subst h0
      simp [h1]
    · have hpos : (0 : ℚ) < (total : ℚ) := by
        exact_mod_cast Nat.pos_of_ne_zero h0
      have hle : (counts : ℚ) / (total : ℚ) ≤ 1 := by
        rw [div_le_one hpos]
        exact_mod_cast hct
      have : ¬ ((5 : ℚ) ≤ (counts : ℚ) / (total : ℚ)) := by
        intro hcon
        linarith
      simp [h1, h0, this]
  · simp [h1]

theorem min_freq_default_bug_witness :
    (5 : Nat) ≤ 10 ∧
    is_presentE 5 10 (fun _ => 1) (compare_scaffold_min_freq []) ≠ .ok true :=
  ⟨by decide, min_freq_default_bug.2.2 5 10 (fun _ => 1) (by decide)⟩

section DedupLemmas

variable {α κ : Type} [DecidableEq κ] (key : α → κ)

lemma dedupKeepLastBy_cons_pos {a : α} {rs : List α} (hc : ∃ s ∈ rs, key s = key a) :
    dedupKeepLastBy key (a :: rs) = dedupKeepLastBy key rs := by
  simp only [dedupKeepLastBy, if_pos hc]

lemma dedupKeepLastBy_cons_neg {a : α} {rs : List α} (hc : ¬ ∃ s ∈ rs, key s = key a) :
    dedupKeepLastBy key (a :: rs) = a :: dedupKeepLastBy key rs := by
  simp only [dedupKeepLastBy, if_neg hc]

lemma mem_of_mem_dedupKeepLastBy {l : List α} {r : α}
    (h : r ∈ dedupKeepLastBy key l) : r ∈ l := by
  induction l with
  | nil => exact absurd h (by simp [dedupKeepLastBy])
  | cons a rs ih =>
    by_cases hc : ∃ s ∈ rs, key s = key a
    · rw [dedupKeepLastBy_cons_pos key hc] at h
      exact List.mem_cons_of_mem a (ih h)
    · rw [dedupKeepLastBy_cons_neg key hc] at h
      rcases List.mem_cons.mp h with h | h
      · exact h ▸ List.mem_cons_self a rs
      · exact List.mem_cons_of_mem a (ih h)

lemma keys_nodup_dedupKeepLastBy (l : List α) :
    ((dedupKeepLastBy key l).map key).Nodup := by
  induction l with
  | nil => simp [dedupKeepLastBy]
  | cons a rs ih =>
    by_cases hc : ∃ s ∈ rs, key s = key a
    · rw [dedupKeepLastBy_cons_pos key hc]
      exact ih
    · rw [dedupKeepLastBy_cons_neg key hc]
      simp only [List.map_cons, List.nodup_cons]
      refine ⟨?_, ih⟩
      intro hmem
      rcases List.mem_map.mp hmem with ⟨s, hs, hkey⟩
      exact hc ⟨s, mem_of_mem_dedupKeepLastBy key hs, hkey⟩

lemma exists_key_dedupKeepLastBy {l : List α} {k : κ} (h : ∃ s ∈ l, key s = k) :
    ∃ r ∈ dedupKeepLastBy key l, key r = k := by
  induction l with
  | nil =>
    rcases h with ⟨s, hs, _⟩
    cases hs
  | cons b rs ih =>
    by_cases hc : ∃ s ∈ rs, key s = key b
    · rw [dedupKeepLastBy_cons_pos key hc]
      rcases h with ⟨s, hs, hks⟩
      rcases List.mem_cons.mp hs with heq | hs'
      · rcases hc with ⟨t, ht, hkt⟩
        refine ih ⟨t, ht, ?_⟩
        rw [hkt, ← heq]
        exact hks
      · exact ih ⟨s, hs', hks⟩
    · rw [dedupKeepLastBy_cons_neg key hc]
      rcases h with ⟨s, hs, hks⟩
      rcases List.mem_cons.mp hs with heq | hs'
      · refine ⟨b, List.mem_cons_self _ _, ?_⟩
        rw [← heq]
        exact hks
      · rcases ih ⟨s, hs', hks⟩ with ⟨r, hr, hkr⟩
        exact ⟨r, List.mem_cons_of_mem b hr, hkr⟩

lemma dedupKeepLastBy_max (val : α → Nat) (l : List α) :
    l.Pairwise (fun x y => val x ≤ val y) →
    ∀ r ∈ dedupKeepLastBy key l, ∀ a ∈ l, key a = key r → val a ≤ val r := by
  induction l with
  | nil =>
    intro _ r hr
    exact absurd hr (by simp [dedupKeepLastBy])
  | cons b rs ih =>
    intro hsort r hr a ha hkey
    have hsort' : rs.Pairwise (fun x y => val x ≤ val y) := hsort.of_cons
    have hhead : ∀ s ∈ rs, val b ≤ val s := fun s hs =>
      List.rel_of_pairwise_cons hsort hs
    by_cases hc : ∃ s ∈ rs, key s = key b
    · rw [dedupKeepLastBy_cons_pos key hc] at hr
      rcases List.mem_cons.mp ha with heq | ha'
      · rw [heq]
        exact hhead r (mem_of_mem_dedupKeepLastBy key hr)
      · exact ih hsort' r hr a ha' hkey
    · rw [dedupKeepLastBy_cons_neg key hc] at hr
      rcases List.mem_cons.mp hr with heq | hr'
      · rcases List.mem_cons.mp ha with heq2 | ha'
        · exact le_of_eq (congrArg val (heq2.trans heq.symm))
        · exact absurd ⟨a, ha', by rw [hkey, heq]⟩ hc
      · rcases List.mem_cons.mp ha with heq2 | ha'
        · rw [heq2]
          exact hhead r (mem_of_mem_dedupKeepLastBy key hr')
        · exact ih hsort' r hr' a ha' hkey

end DedupLemmas

/-- C2 counterexample: a table holding a single variant row at position 0
with mm 5, and an overlap set containing position 0, evaluated at mm level
0.  The claims description excludes the row (its own mm exceeds the level)
while the code keeps it, so the two subsets differ. -/
theorem snp_subset_counterexample :
    snp_table_subset [⟨0, 5, .A, .A, .A, 10, 10, 0, 0, 0, 1⟩] {0}
      ≠ claim_snp_table_subset [⟨0, 5, .A, .A, .A, 10, 10, 0, 0, 0, 1⟩] {0} 0 := by
  decide

/-- C2 (amended): at every evaluated mm level the rows considered from one
sample table are exactly those at positions in that levels overlap set,
one row per position, each carrying the LARGEST mm of any row at its
position in the whole (mm-sorted) table — rows are not restricted to
mm at most the evaluated level. -/
theorem snp_subset_amended (table : List SNPRow) (covs : Finset Nat)
    (hsort : table.Pairwise (fun a b => a.mm ≤ b.mm)) :
    (∀ r ∈ snp_table_subset table covs,
        r ∈ table ∧ r.pos ∈ covs ∧ ∀ s ∈ table, s.pos = r.pos → s.mm ≤ r.mm)
    ∧ ((snp_table_subset table covs).map (fun r => r.pos)).Nodup
    ∧ ∀ s ∈ table, s.pos ∈ covs →
        ∃ r ∈ snp_table_subset table covs, r.pos = s.pos := by
  have hsub : List.Sublist (table.filter (fun r => decide (r.pos ∈ covs))) table :=
    List.filter_sublist table
  have hsort' : (table.filter (fun r => decide (r.pos ∈ covs))).Pairwise
      (fun a b => a.mm ≤ b.mm) := hsort.sublist hsub
  refine ⟨?_, keys_nodup_dedupKeepLastBy _ _, ?_⟩
  · intro r hr
    have hrf := mem_of_mem_dedupKeepLastBy _ hr
    have hrt : r ∈ table := hsub.mem hrf
    have hrc : r.pos ∈ covs := by
      have := (List.mem_filter.mp hrf).2
      exact of_decide_eq_true this
    refine ⟨hrt, hrc, ?_⟩
    intro s hs hspos
    have hsf : s ∈ table.filter (fun r => decide (r.pos ∈ covs)) := by
      refine List.mem_filter.mpr ⟨hs, ?_⟩
      exact decide_eq_true (by rw [hspos]; exact hrc)
    have hr' : r ∈ dedupKeepLastBy (fun r : SNPRow => r.pos)
        (table.filter (fun r => decide (r.pos ∈ covs))) := hr
    exact dedupKeepLastBy_max (fun r : SNPRow => r.pos) (fun r => r.mm) _ hsort' r hr' s hsf hspos
  · intro s hs hsc
    have hsf : s ∈ table.filter (fun r => decide (r.pos ∈ covs)) :=
      List.mem_filter.mpr ⟨hs, decide_eq_true hsc⟩
    exact exists_key_dedupKeepLastBy _ ⟨s, hsf, rfl⟩

theorem snp_subset_amended_witness :
    (([⟨0, 2, .A, .C, .A, 8, 8, 0, 0, 0, 1⟩,
       ⟨0, 7, .C, .C, .A, 9, 0, 9, 0, 0, 1⟩] : List SNPRow).Pairwise
        (fun a b => a.mm ≤ b.mm))
    ∧ ((snp_table_subset
          ([⟨0, 2, .A, .C, .A, 8, 8, 0, 0, 0, 1⟩,
            ⟨0, 7, .C, .C, .A, 9, 0, 9, 0, 0, 1⟩] : List SNPRow) {0}).map
          (fun r => r.pos)).Nodup :=
  ⟨by decide,
    (snp_subset_amended
      [⟨0, 2, .A, .C, .A, 8, 8, 0, 0, 0, 1⟩,
       ⟨0, 7, .C, .C, .A, 9, 0, 9, 0, 0, 1⟩] {0} (by decide)).2.1⟩

section CoverageLemmas

lemma pGet_cons_pos {e : Nat × Series} {l : List (Nat × Series)} {D : Finset Nat}
    (he : e.1 ∈ D) (p : Nat) :
    pGet (e :: l) D p = e.2.get p + pGet l D p := by
  simp [pGet, List.filter_cons, he]

lemma pGet_cons_neg {e : Nat × Series} {l : List (Nat × Series)} {D : Finset Nat}
    (he : e.1 ∉ D) (p : Nat) :
    pGet (e :: l) D p = pGet l D p := by
  simp [pGet, List.filter_cons, he]

lemma pSupp_cons_pos {e : Nat × Series} {l : List (Nat × Series)} {D : Finset Nat}
    (he : e.1 ∈ D) :
    pSupp (e :: l) D = e.2.supp ∪ pSupp l D := by
  simp [pSupp, List.filter_cons, he]

lemma pSupp_cons_neg {e : Nat × Series} {l : List (Nat × Series)} {D : Finset Nat}
    (he : e.1 ∉ D) :
    pSupp (e :: l) D = pSupp l D := by
  simp [pSupp, List.filter_cons, he]

lemma pGet_empty (covT : List (Nat × Series)) (p : Nat) : pGet covT ∅ p = 0 := by
  induction covT with
  | nil => rfl
  | cons e l ih =>
    rw [pGet_cons_neg (Finset.not_mem_empty _)]
    exact ih

lemma pSupp_empty (covT : List (Nat × Series)) : pSupp covT ∅ = ∅ := by
  induction covT with
  | nil => rfl
  | cons e l ih =>
    rw [pSupp_cons_neg (Finset.not_mem_empty _)]
    exact ih

lemma mem_pSupp {covT : List (Nat × Series)} {D : Finset Nat} {p : Nat} :
    p ∈ pSupp covT D ↔ ∃ e ∈ covT, e.1 ∈ D ∧ p ∈ e.2.supp := by
  induction covT with
  | nil => simp [pSupp]
  | cons e l ih =>
    by_cases he : e.1 ∈ D
    · rw [pSupp_cons_pos he]
      simp only [Finset.mem_union, ih, List.mem_cons]
      constructor
      · rintro (hp | ⟨f, hf, hfD, hfp⟩)
        · exact ⟨e, Or.inl rfl, he, hp⟩
        · exact ⟨f, Or.inr hf, hfD, hfp⟩
      · rintro ⟨f, hf | hf, hfD, hfp⟩
        · exact Or.inl (hf ▸ hfp)
        · exact Or.inr ⟨f, hf, hfD, hfp⟩
    · rw [pSupp_cons_neg he]
      rw [ih]
      constructor
      · rintro ⟨f, hf, hfD, hfp⟩
        exact ⟨f, List.mem_cons_of_mem e hf, hfD, hfp⟩
      · rintro ⟨f, hf, hfD, hfp⟩
        rcases List.mem_cons.mp hf with heq | hf'
        · exact absurd (heq ▸ hfD) he
        · exact ⟨f, hf', hfD, hfp⟩

lemma pGet_off {covT : List (Nat × Series)} {D : Finset Nat} {p : Nat}
    (hp : p ∉ pSupp covT D) : pGet covT D p = 0 := by
  induction covT with
  | nil => rfl
  | cons e l ih =>
    by_cases he : e.1 ∈ D
    · rw [pSupp_cons_pos he] at hp
      rw [pGet_cons_pos he]
      have h1 : p ∉ e.2.supp := fun h => hp (Finset.mem_union_left _ h)
      have h2 : p ∉ pSupp l D := fun h => hp (Finset.mem_union_right _ h)
      rw [ih h2, Series.get, if_neg h1]
    · rw [pSupp_cons_neg he] at hp
      rw [pGet_cons_neg he]
      exact ih hp

lemma series_get_inv {cov : Series} {covT : List (Nat × Series)} {D : Finset Nat}
    (hval : ∀ p, cov.val p = pGet covT D p) (hsupp : cov.supp = pSupp covT D)
    (p : Nat) : cov.get p = pGet covT D p := by
  unfold Series.get
  by_cases hp : p ∈ cov.supp
  · rw [if_pos hp]
    exact hval p
  · rw [if_neg hp]
    symm
    apply pGet_off
    rw [← hsupp]
    exact hp

lemma pGet_insert_of_fresh {covT : List (Nat × Series)} {D : Finset Nat} {mm : Nat}
    (hm : mm ∉ covT.map Prod.fst) (p : Nat) :
    pGet covT (insert mm D) p = pGet covT D p := by
  induction covT with
  | nil => rfl
  | cons e l ih =>
    have hne : e.1 ≠ mm := fun h => hm (by simp [h])
    have hm' : mm ∉ l.map Prod.fst := fun h => hm (List.mem_cons_of_mem _ h)
    by_cases he : e.1 ∈ D
    · rw [pGet_cons_pos (Finset.mem_insert_of_mem he), pGet_cons_pos he, ih hm']
    · have he' : e.1 ∉ insert mm D := by
        intro h
        rcases Finset.mem_insert.mp h with h | h
        · exact hne h
        · exact he h
      rw [pGet_cons_neg he', pGet_cons_neg he, ih hm']

lemma pSupp_insert_of_fresh {covT : List (Nat × Series)} {D : Finset Nat} {mm : Nat}
    (hm : mm ∉ covT.map Prod.fst) :
    pSupp covT (insert mm D) = pSupp covT D := by
  induction covT with
  | nil => rfl
  | cons e l ih =>
    have hne : e.1 ≠ mm := fun h => hm (by simp [h])
    have hm' : mm ∉ l.map Prod.fst := fun h => hm (List.mem_cons_of_mem _ h)
    by_cases he : e.1 ∈ D
    · rw [pSupp_cons_pos (Finset.mem_insert_of_mem he), pSupp_cons_pos he, ih hm']
    · have he' : e.1 ∉ insert mm D := by
        intro h
        rcases Finset.mem_insert.mp h with h | h
        · exact hne h
        · exact he h
      rw [pSupp_cons_neg he', pSupp_cons_neg he, ih hm']

lemma lookupT_none_of_fresh {covT : List (Nat × Series)} {mm : Nat}
    (hm : mm ∉ covT.map Prod.fst) : lookupT covT mm = none := by
  unfold lookupT
  have hf : covT.find? (fun e => decide (e.1 = mm)) = none := by
    apply List.find?_eq_none.mpr
    intro e he
    simp only [decide_eq_true_eq]
    intro h
    exact hm (List.mem_map.mpr ⟨e, he, h⟩)
  rw [hf]
  rfl

lemma pGet_insert {covT : List (Nat × Series)} {D : Finset Nat} {mm : Nat}
    (hnd : (covT.map Prod.fst).Nodup) (hmm : mm ∉ D) (p : Nat) :
    pGet covT (insert mm D) p =
      pGet covT D p + (match lookupT covT mm with
                       | some s => s.get p
                       | none => 0) := by
  induction covT with
  | nil => rfl
  | cons e l ih =>
    have hnd1 : e.1 ∉ l.map Prod.fst := (List.nodup_cons.mp hnd).1
    have hnd' : (l.map Prod.fst).Nodup := (List.nodup_cons.mp hnd).2
    by_cases he : e.1 = mm
    · have hlook : lookupT (e :: l) mm = some e.2 := by
        unfold lookupT
        rw [List.find?_cons_of_pos _ (by simp [he])]
        rfl
      have heD : e.1 ∉ D := he ▸ hmm
      have heI : e.1 ∈ insert mm D := he ▸ Finset.mem_insert_self mm D
      rw [hlook, pGet_cons_pos heI, pGet_cons_neg heD,
        pGet_insert_of_fresh (he ▸ hnd1) p, Nat.add_comm]
    · have hlook : lookupT (e :: l) mm = lookupT l mm := by
        unfold lookupT
        rw [List.find?_cons_of_neg _ (by simp [he])]
      rw [hlook]
      by_cases heD : e.1 ∈ D
      · rw [pGet_cons_pos (Finset.mem_insert_of_mem heD), pGet_cons_pos heD,
          ih hnd', Nat.add_assoc]
      · have he' : e.1 ∉ insert mm D := by
          intro h
          rcases Finset.mem_insert.mp h with h | h
          · exact he h
          · exact heD h
        rw [pGet_cons_neg he', pGet_cons_neg heD, ih hnd']

lemma pSupp_insert {covT : List (Nat × Series)} {D : Finset Nat} {mm : Nat}
    (hnd : (covT.map Prod.fst).Nodup) (hmm : mm ∉ D) :
    pSupp covT (insert mm D) =
      pSupp covT D ∪ (match lookupT covT mm with
                      | some s => s.supp
                      | none => ∅) := by
  induction covT with
  | nil => simp [pSupp, lookupT]
  | cons e l ih =>
    have hnd1 : e.1 ∉ l.map Prod.fst := (List.nodup_cons.mp hnd).1
    have hnd' : (l.map Prod.fst).Nodup := (List.nodup_cons.mp hnd).2
    by_cases he : e.1 = mm
    · have hlook : lookupT (e :: l) mm = some e.2 := by
        unfold lookupT
        rw [List.find?_cons_of_pos _ (by simp [he])]
        rfl
      have heD : e.1 ∉ D := he ▸ hmm
      have heI : e.1 ∈ insert mm D := he ▸ Finset.mem_insert_self mm D
      rw [hlook, pSupp_cons_pos heI, pSupp_cons_neg heD,
        pSupp_insert_of_fresh (he ▸ hnd1), Finset.union_comm]
    · have hlook : lookupT (e :: l) mm = lookupT l mm := by
        unfold lookupT
        rw [List.find?_cons_of_neg _ (by simp [he])]
      rw [hlook]
      by_cases heD : e.1 ∈ D
      · rw [pSupp_cons_pos (Finset.mem_insert_of_mem heD), pSupp_cons_pos heD,
          ih hnd', Finset.union_assoc]
      · have he' : e.1 ∉ insert mm D := by
          intro h
          rcases Finset.mem_insert.mp h with h | h
          · exact he h
          · exact heD h
        rw [pSupp_cons_neg he', pSupp_cons_neg heD, ih hnd']

lemma pGet_eq_cumGet {covT : List (Nat × Series)} {D : Finset Nat} {mm : Nat}
    (h : ∀ e ∈ covT, e.1 ∈ D ↔ e.1 ≤ mm) (p : Nat) :
    pGet covT D p = cumGet covT mm p := by
  unfold pGet cumGet
  have hf : covT.filter (fun e => decide (e.1 ∈ D))
      = covT.filter (fun e => decide (e.1 ≤ mm)) :=
    List.filter_congr (fun e he => decide_eq_decide.mpr (h e he))
  rw [hf]

lemma pSupp_eq_cumSupp {covT : List (Nat × Series)} {D : Finset Nat} {mm : Nat}
    (h : ∀ e ∈ covT, e.1 ∈ D ↔ e.1 ≤ mm) :
    pSupp covT D = cumSupp covT mm := by
  unfold pSupp cumSupp
  have hf : covT.filter (fun e => decide (e.1 ∈ D))
      = covT.filter (fun e => decide (e.1 ≤ mm)) :=
    List.filter_congr (fun e he => decide_eq_decide.mpr (h e he))
  rw [hf]

lemma addLevel_inv {covT : List (Nat × Series)} {D : Finset Nat} {cov : Series} {mm : Nat}
    (hnd : (covT.map Prod.fst).Nodup) (hmm : mm ∉ D)
    (hval : ∀ p, cov.val p = pGet covT D p) (hsupp : cov.supp = pSupp covT D) :
    (∀ p, (addLevel covT cov mm).val p = pGet covT (insert mm D) p)
    ∧ (addLevel covT cov mm).supp = pSupp covT (insert mm D) := by
  cases hl : lookupT covT mm with
  | none =>
    have ha : addLevel covT cov mm = cov := by
      unfold addLevel
      rw [hl]
    rw [ha]
    constructor
    · intro p
      rw [hval p, pGet_insert hnd hmm p, hl]
      rfl
    · rw [hsupp, pSupp_insert hnd hmm, hl]
      exact (Finset.union_empty _).symm
  | some s =>
    have ha : addLevel covT cov mm = cov.add s := by
      unfold addLevel
      rw [hl]
    rw [ha]
    constructor
    · intro p
      show cov.get p + s.get p = _
      rw [pGet_insert hnd hmm p, hl, series_get_inv hval hsupp p]
    · show cov.supp ∪ s.supp = _
      rw [pSupp_insert hnd hmm, hl, hsupp]

lemma mm2overlapLoop_spec {covT1 covT2 : List (Nat × Series)} {min_cov : Nat}
    (hnd1 : (covT1.map Prod.fst).Nodup) (hnd2 : (covT2.map Prod.fst).Nodup) :
    ∀ (rest : List Nat) (D : Finset Nat) (cov1 cov2 : Series),
      rest.Pairwise (· < ·) →
      (∀ d ∈ D, ∀ r ∈ rest, d < r) →
      (∀ e ∈ covT1, e.1 ∈ D ∨ e.1 ∈ rest) →
      (∀ e ∈ covT2, e.1 ∈ D ∨ e.1 ∈ rest) →
      (∀ p, cov1.val p = pGet covT1 D p) → cov1.supp = pSupp covT1 D →
      (∀ p, cov2.val p = pGet covT2 D p) → cov2.supp = pSupp covT2 D →
      ∀ mm lc, (mm, lc) ∈ mm2overlapLoop covT1 covT2 min_cov rest cov1 cov2 →
        lc.T1 = coveredSet covT1 mm min_cov ∧
        lc.T2 = coveredSet covT2 mm min_cov ∧
        lc.coveredInBoth = lc.T1 ∩ lc.T2 ∧
        lc.coveredInEither = lc.T1 ∪ lc.T2 ∧
        lc.cov = (if 0 < (lc.T1 ∪ lc.T2).card
                  then ((lc.T1 ∩ lc.T2).card : ℚ) / ((lc.T1 ∪ lc.T2).card : ℚ)
                  else 0) := by
  intro rest
  induction rest with
  | nil =>
    intro D cov1 cov2 _ _ _ _ _ _ _ _ mm lc hmem
    exact absurd hmem (by simp [mm2overlapLoop])
  | cons mm0 rest' ih =>
    intro D cov1 cov2 hsort hsep hcov1 hcov2 hval1 hsupp1 hval2 hsupp2 mm lc hmem
    have hmm0D : mm0 ∉ D := fun h =>
      absurd (hsep mm0 h mm0 (List.mem_cons_self _ _)) (lt_irrefl mm0)
    have hA1 := addLevel_inv hnd1 hmm0D hval1 hsupp1
    have hA2 := addLevel_inv hnd2 hmm0D hval2 hsupp2
    have hiff : ∀ (covT : List (Nat × Series)),
        (∀ e ∈ covT, e.1 ∈ D ∨ e.1 ∈ mm0 :: rest') →
        ∀ e ∈ covT, (e.1 ∈ insert mm0 D ↔ e.1 ≤ mm0) := by
      intro covT hcov e he
      constructor
      · intro h
        rcases Finset.mem_insert.mp h with h | h
        · exact le_of_eq h
        · exact le_of_lt (hsep e.1 h mm0 (List.mem_cons_self _ _))
      · intro hle
        rcases hcov e he with h | h
        · exact Finset.mem_insert_of_mem h
        · rcases List.mem_cons.mp h with h | h
          · exact h ▸ Finset.mem_insert_self _ _
          · exact absurd hle (not_le.mpr (List.rel_of_pairwise_cons hsort h))
    have hiff1 := hiff covT1 hcov1
    have hiff2 := hiff covT2 hcov2
    have hT1 : (addLevel covT1 cov1 mm0).covSet min_cov = coveredSet covT1 mm0 min_cov := by
      unfold Series.covSet coveredSet
      rw [hA1.2, pSupp_eq_cumSupp hiff1]
      apply Finset.filter_congr
      intro p hp
      rw [hA1.1 p, pGet_eq_cumGet hiff1 p]
    have hT2 : (addLevel covT2 cov2 mm0).covSet min_cov = coveredSet covT2 mm0 min_cov := by
      unfold Series.covSet coveredSet
      rw [hA2.2, pSupp_eq_cumSupp hiff2]
      apply Finset.filter_congr
      intro p hp
      rw [hA2.1 p, pGet_eq_cumGet hiff2 p]
    rcases List.mem_cons.mp hmem with heq | hmem'
    · have hmm : mm = mm0 := congrArg Prod.fst heq
      have hlc : lc = ⟨(addLevel covT1 cov1 mm0).covSet min_cov,
          (addLevel covT2 cov2 mm0).covSet min_cov,
          (addLevel covT1 cov1 mm0).covSet min_cov ∪ (addLevel covT2 cov2 mm0).covSet min_cov,
          (addLevel covT1 cov1 mm0).covSet min_cov ∩ (addLevel covT2 cov2 mm0).covSet min_cov,
          if 0 < ((addLevel covT1 cov1 mm0).covSet min_cov
              ∪ (addLevel covT2 cov2 mm0).covSet min_cov).card
          then (((addLevel covT1 cov1 mm0).covSet min_cov
              ∩ (addLevel covT2 cov2 mm0).covSet min_cov).card : ℚ)
              / (((addLevel covT1 cov1 mm0).covSet min_cov
              ∪ (addLevel covT2 cov2 mm0).covSet min_cov).card : ℚ)
          else 0⟩ := congrArg Prod.snd heq
      subst hmm
      rw [hlc]
      exact ⟨hT1, hT2, rfl, rfl, rfl⟩
    · refine ih (insert mm0 D) (addLevel covT1 cov1 mm0) (addLevel covT2 cov2 mm0)
        hsort.of_cons ?_ ?_ ?_ hA1.1 hA1.2 hA2.1 hA2.2 mm lc hmem'
      · intro d hd r hr
        rcases Finset.mem_insert.mp hd with h | h
        · exact h ▸ List.rel_of_pairwise_cons hsort hr
        · exact hsep d h r (List.mem_cons_of_mem _ hr)
      · intro e he
        rcases hcov1 e he with h | h
        · exact Or.inl (Finset.mem_insert_of_mem h)
        · rcases List.mem_cons.mp h with h | h
          · exact Or.inl (h ▸ Finset.mem_insert_self _ _)
          · exact Or.inr h
      · intro e he
        rcases hcov2 e he with h | h
        · exact Or.inl (Finset.mem_insert_of_mem h)
        · rcases List.mem_cons.mp h with h | h
          · exact Or.inl (h ▸ Finset.mem_insert_self _ _)
          · exact Or.inr h

lemma unionKeys_sorted_lt (covT1 covT2 : List (Nat × Series)) :
    (unionKeys covT1 covT2).Pairwise (· < ·) := by
  have h1 : (unionKeys covT1 covT2).Sorted (· ≤ ·) :=
    List.sorted_insertionSort _ _
  have h2 : (unionKeys covT1 covT2).Nodup :=
    (List.perm_insertionSort _ _).nodup_iff.mpr (List.nodup_dedup _)
  exact h1.lt_of_le h2

lemma mem_unionKeys {covT1 covT2 : List (Nat × Series)} {k : Nat} :
    k ∈ unionKeys covT1 covT2
      ↔ (k ∈ covT1.map Prod.fst ∨ k ∈ covT2.map Prod.fst) := by
  unfold unionKeys
  rw [(List.perm_insertionSort (· ≤ ·) _).mem_iff, List.mem_dedup, List.mem_append]

lemma calc_mm2overlap_spec {covT1 covT2 : List (Nat × Series)} {min_cov : Nat}
    (hnd1 : (covT1.map Prod.fst).Nodup) (hnd2 : (covT2.map Prod.fst).Nodup)
    {mm : Nat} {lc : LevelCalc}
    (hmem : (mm, lc) ∈ mm2overlapLoop covT1 covT2 min_cov (unionKeys covT1 covT2)
      Series.emptyS Series.emptyS) :
    lc.T1 = coveredSet covT1 mm min_cov ∧
    lc.T2 = coveredSet covT2 mm min_cov ∧
    lc.coveredInBoth = lc.T1 ∩ lc.T2 ∧
    lc.coveredInEither = lc.T1 ∪ lc.T2 ∧
    lc.cov = (if 0 < (lc.T1 ∪ lc.T2).card
              then ((lc.T1 ∩ lc.T2).card : ℚ) / ((lc.T1 ∪ lc.T2).card : ℚ)
              else 0) := by
  refine mm2overlapLoop_spec hnd1 hnd2 (unionKeys covT1 covT2) ∅ _ _
    (unionKeys_sorted_lt covT1 covT2) ?_ ?_ ?_ ?_ ?_ ?_ ?_ mm lc hmem
  · intro d hd
    exact absurd hd (Finset.not_mem_empty d)
  · intro e he
    exact Or.inr (mem_unionKeys.mpr (Or.inl (List.mem_map_of_mem _ he)))
  · intro e he
    exact Or.inr (mem_unionKeys.mpr (Or.inr (List.mem_map_of_mem _ he)))
  · intro p
    exact (pGet_empty covT1 p).symm
  · exact (pSupp_empty covT1).symm
  · intro p
    exact (pGet_empty covT2 p).symm
  · exact (pSupp_empty covT2).symm

lemma cumGet_cons_pos {e : Nat × Series} {l : List (Nat × Series)} {mm : Nat}
    (he : e.1 ≤ mm) (p : Nat) :
    cumGet (e :: l) mm p = e.2.get p + cumGet l mm p := by
  simp [cumGet, List.filter_cons, he]

lemma cumGet_cons_neg {e : Nat × Series} {l : List (Nat × Series)} {mm : Nat}
    (he : ¬ e.1 ≤ mm) (p : Nat) :
    cumGet (e :: l) mm p = cumGet l mm p := by
  simp [cumGet, List.filter_cons, he]

lemma cumSupp_cons_pos {e : Nat × Series} {l : List (Nat × Series)} {mm : Nat}
    (he : e.1 ≤ mm) :
    cumSupp (e :: l) mm = e.2.supp ∪ cumSupp l mm := by
  simp [cumSupp, List.filter_cons, he]

lemma cumSupp_cons_neg {e : Nat × Series} {l : List (Nat × Series)} {mm : Nat}
    (he : ¬ e.1 ≤ mm) :
    cumSupp (e :: l) mm = cumSupp l mm := by
  simp [cumSupp, List.filter_cons, he]

lemma cumGet_mono (covT : List (Nat × Series)) (p : Nat) {M N : Nat} (h : M ≤ N) :
    cumGet covT M p ≤ cumGet covT N p := by
  induction covT with
  | nil => exact le_refl _
  | cons e l ih =>
    by_cases h1 : e.1 ≤ M
    · rw [cumGet_cons_pos h1, cumGet_cons_pos (le_trans h1 h)]
      exact Nat.add_le_add_left ih _
    · rw [cumGet_cons_neg h1]
      by_cases h2 : e.1 ≤ N
      · rw [cumGet_cons_pos h2]
        exact le_trans ih (Nat.le_add_left _ _)
      · rw [cumGet_cons_neg h2]
        exact ih

lemma mem_cumSupp {covT : List (Nat × Series)} {mm p : Nat} :
    p ∈ cumSupp covT mm ↔ ∃ e ∈ covT, e.1 ≤ mm ∧ p ∈ e.2.supp := by
  induction covT with
  | nil => simp [cumSupp]
  | cons e l ih =>
    by_cases he : e.1 ≤ mm
    · rw [cumSupp_cons_pos he]
      simp only [Finset.mem_union, ih, List.mem_cons]
      constructor
      · rintro (hp | ⟨f, hf, hfm, hfp⟩)
        · exact ⟨e, Or.inl rfl, he, hp⟩
        · exact ⟨f, Or.inr hf, hfm, hfp⟩
      · rintro ⟨f, hf | hf, hfm, hfp⟩
        · exact Or.inl (hf ▸ hfp)
        · exact Or.inr ⟨f, hf, hfm, hfp⟩
    · rw [cumSupp_cons_neg he, ih]
      constructor
      · rintro ⟨f, hf, hfm, hfp⟩
        exact ⟨f, List.mem_cons_of_mem e hf, hfm, hfp⟩
      · rintro ⟨f, hf, hfm, hfp⟩
        rcases List.mem_cons.mp hf with heq | hf'
        · exact absurd (heq ▸ hfm) he
        · exact ⟨f, hf', hfm, hfp⟩

lemma coveredSet_mono (covT : List (Nat × Series)) (min_cov : Nat) {M N : Nat}
    (h : M ≤ N) : coveredSet covT M min_cov ⊆ coveredSet covT N min_cov := by
  intro p hp
  obtain ⟨hps, hpv⟩ := Finset.mem_filter.mp hp
  refine Finset.mem_filter.mpr ⟨?_, le_trans hpv (cumGet_mono covT p h)⟩
  rcases mem_cumSupp.mp hps with ⟨e, he, hle, hpe⟩
  exact mem_cumSupp.mpr ⟨e, he, le_trans hle h, hpe⟩

end CoverageLemmas

/-- C5: every overlap fraction that _calc_mm2overlap emits at an evaluated
mm level equals card(T1 inter T2) / card(T1 union T2), where Ti is the set
of positions whose cumulative depth in sample i at that level reaches the
minimum-depth threshold; when the union is empty the fraction is 0 by
convention; and it always lies in [0, 1]. -/
theorem coverage_overlap_fraction (covT1 covT2 : List (Nat × Series)) (min_cov : Nat)
    (hnd1 : (covT1.map Prod.fst).Nodup) (hnd2 : (covT2.map Prod.fst).Nodup)
    (mm : Nat) (c : ℚ)
    (hmem : (mm, c) ∈ (calc_mm2overlap covT1 covT2 min_cov).2) :
    ((coveredSet covT1 mm min_cov ∪ coveredSet covT2 mm min_cov) = ∅ → c = 0)
    ∧ ((coveredSet covT1 mm min_cov ∪ coveredSet covT2 mm min_cov) ≠ ∅ →
        c = ((coveredSet covT1 mm min_cov ∩ coveredSet covT2 mm min_cov).card : ℚ)
            / ((coveredSet covT1 mm min_cov ∪ coveredSet covT2 mm min_cov).card : ℚ))
    ∧ 0 ≤ c ∧ c ≤ 1 := by
  have hmem' : ∃ a b, (a, b) ∈ mm2overlapLoop covT1 covT2 min_cov
      (unionKeys covT1 covT2) Series.emptyS Series.emptyS ∧ a = mm ∧ b.cov = c := by
    simpa [calc_mm2overlap] using hmem
  obtain ⟨a, b, hL, ha, hb⟩ := hmem'
  subst ha
  obtain ⟨h1, h2, _, _, h5⟩ := calc_mm2overlap_spec hnd1 hnd2 hL
  have hkey : c = if 0 < ((coveredSet covT1 a min_cov
        ∪ coveredSet covT2 a min_cov)).card
      then ((coveredSet covT1 a min_cov ∩ coveredSet covT2 a min_cov).card : ℚ)
          / ((coveredSet covT1 a min_cov ∪ coveredSet covT2 a min_cov).card : ℚ)
      else 0 := by
    rw [← hb, h5, h1, h2]
  have hcard : (coveredSet covT1 a min_cov ∩ coveredSet covT2 a min_cov).card
      ≤ (coveredSet covT1 a min_cov ∪ coveredSet covT2 a min_cov).card :=
    Finset.card_le_card
      (subset_trans Finset.inter_subset_left Finset.subset_union_left)
  refine ⟨?_, ?_, ?_, ?_⟩
  · intro hU
    rw [hkey, hU]
    simp
  · intro hU
    have hpos : 0 < (coveredSet covT1 a min_cov ∪ coveredSet covT2 a min_cov).card :=
      Finset.card_pos.mpr (Finset.nonempty_iff_ne_empty.mpr hU)
    rw [hkey, if_pos hpos]
  · rw [hkey]
    by_cases hpos : 0 < (coveredSet covT1 a min_cov ∪ coveredSet covT2 a min_cov).card
    · rw [if_pos hpos]
      positivity
    · rw [if_neg hpos]
  · rw [hkey]
    by_cases hpos : 0 < (coveredSet covT1 a min_cov ∪ coveredSet covT2 a min_cov).card
    · rw [if_pos hpos]
      rw [div_le_one (by exact_mod_cast hpos)]
      exact_mod_cast hcard
    · rw [if_neg hpos]
      norm_num

theorem coverage_overlap_fraction_witness :
    ((0, (0 : ℚ)) ∈ (calc_mm2overlap [((0 : Nat), Series.emptyS)]
        [((0 : Nat), Series.emptyS)] 5).2)
    ∧ (0 ≤ (0 : ℚ) ∧ (0 : ℚ) ≤ 1) := by
  have hmem : (0, (0 : ℚ)) ∈ (calc_mm2overlap [((0 : Nat), Series.emptyS)]
      [((0 : Nat), Series.emptyS)] 5).2 := by
    have : (calc_mm2overlap [((0 : Nat), Series.emptyS)]
        [((0 : Nat), Series.emptyS)] 5).2 = [(0, (0 : ℚ))] := rfl
    rw [this]
    exact List.mem_singleton.mpr rfl
  exact ⟨hmem,
    (coverage_overlap_fraction [(0, Series.emptyS)] [(0, Series.emptyS)] 5
      (by decide) (by decide) 0 0 hmem).2.2⟩

/-- C7: for any two evaluated mm levels N >= M of the same pair of
coverage tables, the per-sample covered-position sets at N contain those
at M, and the emitted both-covered overlap set at N contains the one
emitted at M (coverage only grows as mismatch tolerance relaxes). -/
theorem coverage_sets_monotone (covT1 covT2 : List (Nat × Series)) (min_cov : Nat)
    (hnd1 : (covT1.map Prod.fst).Nodup) (hnd2 : (covT2.map Prod.fst).Nodup)
    (M N : Nat) (bM bN : Finset Nat)
    (hM : (M, bM) ∈ (calc_mm2overlap covT1 covT2 min_cov).1)
    (hN : (N, bN) ∈ (calc_mm2overlap covT1 covT2 min_cov).1)
    (hMN : M ≤ N) :
    coveredSet covT1 M min_cov ⊆ coveredSet covT1 N min_cov
    ∧ coveredSet covT2 M min_cov ⊆ coveredSet covT2 N min_cov
    ∧ bM ⊆ bN := by
  have hM' : ∃ a b, (a, b) ∈ mm2overlapLoop covT1 covT2 min_cov
      (unionKeys covT1 covT2) Series.emptyS Series.emptyS
      ∧ a = M ∧ b.coveredInBoth = bM := by
    simpa [calc_mm2overlap] using hM
  have hN' : ∃ a b, (a, b) ∈ mm2overlapLoop covT1 covT2 min_cov
      (unionKeys covT1 covT2) Series.emptyS Series.emptyS
      ∧ a = N ∧ b.coveredInBoth = bN := by
    simpa [calc_mm2overlap] using hN
  obtain ⟨aM, e, hLe, haM, hbe⟩ := hM'
  obtain ⟨aN, f, hLf, haN, hbf⟩ := hN'
  subst haM
  subst haN
  obtain ⟨he1, he2, he3, _, _⟩ := calc_mm2overlap_spec hnd1 hnd2 hLe
  obtain ⟨hf1, hf2, hf3, _, _⟩ := calc_mm2overlap_spec hnd1 hnd2 hLf
  refine ⟨coveredSet_mono covT1 min_cov hMN, coveredSet_mono covT2 min_cov hMN, ?_⟩
  rw [← hbe, ← hbf, he3, hf3, he1, he2, hf1, hf2]
  exact Finset.inter_subset_inter (coveredSet_mono covT1 min_cov hMN)
    (coveredSet_mono covT2 min_cov hMN)

theorem coverage_sets_monotone_witness :
    ((0, ({0} : Finset Nat)) ∈ (calc_mm2overlap
        [((0 : Nat), ⟨{0}, fun _ => 5⟩), ((2 : Nat), ⟨{1}, fun _ => 5⟩)]
        [((0 : Nat), (⟨{0, 1}, fun _ => 5⟩ : Series))] 5).1)
    ∧ ((2, ({0, 1} : Finset Nat)) ∈ (calc_mm2overlap
        [((0 : Nat), ⟨{0}, fun _ => 5⟩), ((2 : Nat), ⟨{1}, fun _ => 5⟩)]
        [((0 : Nat), (⟨{0, 1}, fun _ => 5⟩ : Series))] 5).1)
    ∧ (0 : Nat) ≤ 2
    ∧ ({0} : Finset Nat) ⊆ ({0, 1} : Finset Nat) := by
  refine ⟨by decide, by decide, by decide, ?_⟩
  exact (coverage_sets_monotone
    [((0 : Nat), ⟨{0}, fun _ => 5⟩), ((2 : Nat), ⟨{1}, fun _ => 5⟩)]
    [((0 : Nat), (⟨{0, 1}, fun _ => 5⟩ : Series))] 5
    (by decide) (by decide) 0 2 {0} {0, 1}
    (by decide) (by decide) (by decide)).2.2

section SNPPipelineLemmas

lemma mapE_forall₂ {α β : Type} {f : α → Except Unit β} :
    ∀ {l : List α} {bs : List β}, mapE f l = .ok bs →
      List.Forall₂ (fun a b => f a = .ok b) l bs := by
  intro l
  induction l with
  | nil =>
    intro bs h
    have hb : ([] : List β) = bs := by
      simpa [mapE] using h
    rw [← hb]
    exact List.Forall₂.nil
  | cons a l ih =>
    intro bs h
    cases hfa : f a with
    | error e =>
      have hcon : mapE f (a :: l) = .error e := by
        simp [mapE, hfa]
      rw [hcon] at h
      exact Except.noConfusion h
    | ok b =>
      cases hml : mapE f l with
      | error e =>
        have hcon : mapE f (a :: l) = .error e := by
          simp [mapE, hfa, hml]
        rw [hcon] at h
        exact Except.noConfusion h
      | ok bs' =>
        have hcon : mapE f (a :: l) = .ok (b :: bs') := by
          simp [mapE, hfa, hml]
        rw [hcon] at h
        have hb : b :: bs' = bs := by injection h
        rw [← hb]
        exact List.Forall₂.cons hfa (ih hml)

lemma forall₂_mem_right {α β : Type} {R : α → β → Prop} :
    ∀ {l : List α} {bs : List β}, List.Forall₂ R l bs →
      ∀ b ∈ bs, ∃ a ∈ l, R a b := by
  intro l bs h
  induction h with
  | nil =>
    intro b hb
    cases hb
  | cons hr _ ih =>
    intro b hb
    rcases List.mem_cons.mp hb with heq | hb'
    · exact ⟨_, List.mem_cons_self _ _, heq ▸ hr⟩
    · obtain ⟨a, ha, hR⟩ := ih b hb'
      exact ⟨a, List.mem_cons_of_mem _ ha, hR⟩

lemma outerMerge_pos_map (l1 l2 : List SNPRow) :
    (outerMerge l1 l2).map MergedRec.pos
      = l1.map (fun r => r.pos)
        ++ (l2.filter (fun r2 => decide (∀ r1 ∈ l1, r1.pos ≠ r2.pos))).map
            (fun r => r.pos) := by
  unfold outerMerge
  rw [List.map_append, List.map_map, List.map_map]
  congr 1
  apply List.map_congr_left
  intro r1 _
  cases h : l2.find? (fun r2 => decide (r2.pos = r1.pos)) <;>
    simp [Function.comp, h, MergedRec.pos]

lemma outerMerge_length_le {l1 l2 : List SNPRow} {covs : Finset Nat}
    (h1n : (l1.map (fun r => r.pos)).Nodup) (h2n : (l2.map (fun r => r.pos)).Nodup)
    (h1c : ∀ r ∈ l1, r.pos ∈ covs) (h2c : ∀ r ∈ l2, r.pos ∈ covs) :
    (outerMerge l1 l2).length ≤ covs.card := by
  have hmap := outerMerge_pos_map l1 l2
  have hnodup : ((outerMerge l1 l2).map MergedRec.pos).Nodup := by
    rw [hmap]
    refine List.Nodup.append h1n ?_ ?_
    · exact List.Nodup.sublist (List.Sublist.map _ (List.filter_sublist l2)) h2n
    · intro a ha1 ha2
      obtain ⟨r1, hr1, hp1⟩ := List.mem_map.mp ha1
      obtain ⟨r2, hr2, hp2⟩ := List.mem_map.mp ha2
      obtain ⟨hr2l, hr2c⟩ := List.mem_filter.mp hr2
      exact (of_decide_eq_true hr2c) r1 hr1 (by rw [hp1, hp2])
  have hsub : ((outerMerge l1 l2).map MergedRec.pos).toFinset ⊆ covs := by
    intro a ha
    have ha' := List.mem_toFinset.mp ha
    rw [hmap] at ha'
    rcases List.mem_append.mp ha' with h | h
    · obtain ⟨r1, hr1, hp1⟩ := List.mem_map.mp h
      exact hp1 ▸ h1c r1 hr1
    · obtain ⟨r2, hr2, hp2⟩ := List.mem_map.mp h
      exact hp2 ▸ h2c r2 (List.mem_filter.mp hr2).1
  calc (outerMerge l1 l2).length
      = ((outerMerge l1 l2).map MergedRec.pos).length := (List.length_map _ _).symm
    _ = ((outerMerge l1 l2).map MergedRec.pos).toFinset.card :=
        (List.toFinset_card_of_nodup hnodup).symm
    _ ≤ covs.card := Finset.card_le_card hsub

lemma snp_table_subset_pos_nodup (t : List SNPRow) (covs : Finset Nat) :
    ((snp_table_subset t covs).map (fun r => r.pos)).Nodup :=
  keys_nodup_dedupKeepLastBy _ _

lemma snp_table_subset_pos_mem {t : List SNPRow} {covs : Finset Nat} :
    ∀ r ∈ snp_table_subset t covs, r.pos ∈ covs := fun _ hr =>
  of_decide_eq_true (List.mem_filter.mp (mem_of_mem_dedupKeepLastBy _ hr)).2

lemma snp_block_spec {t1 t2 : List SNPRow} {mm : Nat} {covs : Finset Nat}
    {mcol : MinorCol} {model : Nat → Nat} {min_freq : ℚ} {rows : List MRow}
    (h : snp_block t1 t2 mm covs mcol model min_freq = .ok rows) :
    rows.length ≤ covs.card ∧ ∀ r ∈ rows, r.mm = mm := by
  have hf := mapE_forall₂ h
  constructor
  · have hlen : rows.length
        = (outerMerge (snp_table_subset t1 covs) (snp_table_subset t2 covs)).length :=
      hf.length_eq.symm
    rw [hlen]
    exact outerMerge_length_le (snp_table_subset_pos_nodup t1 covs)
      (snp_table_subset_pos_nodup t2 covs)
      snp_table_subset_pos_mem snp_table_subset_pos_mem
  · intro r hr
    obtain ⟨a, _, hfa⟩ := forall₂_mem_right hf r hr
    cases hp : call_pop_snps mcol model min_freq a with
    | error e =>
      rw [hp] at hfa
      exact Except.noConfusion hfa
    | ok b =>
      rw [hp] at hfa
      have hmk : MRow.mk a (call_con_snps a) b mm = r := by
        simpa [Except.map] using hfa
      rw [← hmk]

lemma calc_snp_filter {t1 t2 : List SNPRow} {mcol : MinorCol} {model : Nat → Nat}
    {min_freq : ℚ} :
    ∀ {entries : List (Nat × Finset Nat)} {dbs : List (List MRow)},
    List.Forall₂
      (fun e db => snp_block t1 t2 e.1 e.2 mcol model min_freq = .ok db) entries dbs →
    (entries.map Prod.fst).Nodup →
    ∀ e ∈ entries, ∃ db, snp_block t1 t2 e.1 e.2 mcol model min_freq = .ok db
      ∧ dbs.flatten.filter (fun r => decide (r.mm = e.1)) = db
      ∧ db.length ≤ e.2.card := by
  intro entries dbs h
  induction h with
  | nil =>
    intro _ e he
    cases he
  | @cons e0 db0 entries' dbs' hr ht ih =>
    intro hnd e he
    have hnd0 : e0.1 ∉ entries'.map Prod.fst := (List.nodup_cons.mp hnd).1
    have hnd' : (entries'.map Prod.fst).Nodup := (List.nodup_cons.mp hnd).2
    have hdb0mm : ∀ r ∈ db0, r.mm = e0.1 := (snp_block_spec hr).2
    have hflat : ∀ r ∈ dbs'.flatten, ∃ f ∈ entries', r.mm = f.1 := by
      intro r hrf
      obtain ⟨db', hdb', hrdb'⟩ := List.mem_flatten.mp hrf
      obtain ⟨f, hfm, hRf⟩ := forall₂_mem_right ht db' hdb'
      exact ⟨f, hfm, (snp_block_spec hRf).2 r hrdb'⟩
    rcases List.mem_cons.mp he with heq | he'
    · subst heq
      refine ⟨db0, hr, ?_, (snp_block_spec hr).1⟩
      rw [List.flatten_cons, List.filter_append]
      have h1 : db0.filter (fun r => decide (r.mm = e.1)) = db0 :=
        List.filter_eq_self.mpr (fun r hr' => decide_eq_true (hdb0mm r hr'))
      have h2 : dbs'.flatten.filter (fun r => decide (r.mm = e.1)) = [] := by
        rw [List.filter_eq_nil_iff]
        intro r hrf
        obtain ⟨f, hfm, hmmr⟩ := hflat r hrf
        simp only [decide_eq_true_eq]
        intro hcon
        exact hnd0 (List.mem_map.mpr ⟨f, hfm, by rw [← hmmr, hcon]⟩)
      rw [h1, h2, List.append_nil]
    · obtain ⟨db, hdb, hfilter, hlen⟩ := ih hnd' e he'
      refine ⟨db, hdb, ?_, hlen⟩
      rw [List.flatten_cons, List.filter_append, hfilter]
      have h1 : db0.filter (fun r => decide (r.mm = e.1)) = [] := by
        rw [List.filter_eq_nil_iff]
        intro r hr0
        simp only [decide_eq_true_eq]
        intro hcon
        have : e0.1 = e.1 := by rw [← hdb0mm r hr0, hcon]
        exact hnd0 (this ▸ List.mem_map.mpr ⟨e, he', rfl⟩)
      rw [h1, List.nil_append]

end SNPPipelineLemmas

/-- C4: every row _update_overlap_table emits from the SNP table built by
_calc_SNP_count_alternate satisfies conANI = (compared - consensusSNPs) /
compared and popANI = (compared - populationSNPs) / compared when the
compared-base count is positive, both values then lying in [0, 1]; and
both ANI values are absent (none, modelling NaN) when the compared-base
count is zero. -/
theorem comparison_row_ani (t1 t2 : List SNPRow)
    (mm2overlap : List (Nat × Finset Nat)) (mm2coverage : List (Nat × ℚ))
    (mcol : MinorCol) (model : Nat → Nat) (min_freq : ℚ)
    (scaffold name1 name2 : String) (mLen : Nat) (Mdb : List MRow)
    (hnd : (mm2overlap.map Prod.fst).Nodup)
    (hok : calc_SNP_count_alternate t1 t2 mm2overlap mcol model min_freq = .ok Mdb) :
    ∀ row ∈ update_overlap_table scaffold mm2overlap mm2coverage Mdb name1 name2 mLen,
      (row.compared_bases_count ≠ 0 →
        row.conANI = some (((row.compared_bases_count : ℚ) - (row.consensus_SNPs : ℚ))
            / (row.compared_bases_count : ℚ))
        ∧ row.popANI = some (((row.compared_bases_count : ℚ) - (row.population_SNPs : ℚ))
            / (row.compared_bases_count : ℚ))
        ∧ (∀ q, row.conANI = some q → 0 ≤ q ∧ q ≤ 1)
        ∧ (∀ q, row.popANI = some q → 0 ≤ q ∧ q ≤ 1))
      ∧ (row.compared_bases_count = 0 → row.conANI = none ∧ row.popANI = none) := by
  cases hm : mapE (fun e => snp_block t1 t2 e.1 e.2 mcol model min_freq) mm2overlap with
  | error e =>
    unfold calc_SNP_count_alternate at hok
    rw [hm] at hok
    exact absurd hok (by simp [Except.map])
  | ok dbs =>
    unfold calc_SNP_count_alternate at hok
    rw [hm] at hok
    have hMdb : dbs.flatten = Mdb := by
      simpa [Except.map] using hok
    have hf := mapE_forall₂ hm
    intro row hrow
    obtain ⟨e, he, hroweq⟩ := List.mem_map.mp hrow
    obtain ⟨db, _, hfilter, hlen⟩ := calc_snp_filter hf hnd e he
    rw [hMdb] at hfilter
    have hcomp : row.compared_bases_count = e.2.card := by
      rw [← hroweq]
    have hsnps : row.consensus_SNPs
        = ((Mdb.filter (fun r => decide (r.mm = e.1))).filter
            (fun r => r.consensus_SNP)).length := by
      rw [← hroweq]
    have hpop : row.population_SNPs
        = ((Mdb.filter (fun r => decide (r.mm = e.1))).filter
            (fun r => r.population_SNP)).length := by
      rw [← hroweq]
    have hsle : row.consensus_SNPs ≤ row.compared_bases_count := by
      rw [hsnps, hcomp, hfilter]
      exact le_trans (List.length_filter_le _ _) hlen
    have hple : row.population_SNPs ≤ row.compared_bases_count := by
      rw [hpop, hcomp, hfilter]
      exact le_trans (List.length_filter_le _ _) hlen
    have hcon : row.conANI = if row.compared_bases_count = 0 then none
        else some (((row.compared_bases_count : ℚ) - (row.consensus_SNPs : ℚ))
            / (row.compared_bases_count : ℚ)) := by
      rw [hcomp, hsnps, ← hroweq]
    have hpopA : row.popANI = if row.compared_bases_count = 0 then none
        else some (((row.compared_bases_count : ℚ) - (row.population_SNPs : ℚ))
            / (row.compared_bases_count : ℚ)) := by
      rw [hcomp, hpop, ← hroweq]
    constructor
    · intro hne
      have hposQ : (0 : ℚ) < (row.compared_bases_count : ℚ) := by
        exact_mod_cast Nat.pos_of_ne_zero hne
      refine ⟨by rw [hcon, if_neg hne], by rw [hpopA, if_neg hne], ?_, ?_⟩
      · intro q hq
        rw [hcon, if_neg hne] at hq
        have hq' : ((row.compared_bases_count : ℚ) - (row.consensus_SNPs : ℚ))
            / (row.compared_bases_count : ℚ) = q := by injection hq
        have hnum0 : (0 : ℚ) ≤ (row.compared_bases_count : ℚ) - (row.consensus_SNPs : ℚ) := by
          have : (row.consensus_SNPs : ℚ) ≤ (row.compared_bases_count : ℚ) := by
            exact_mod_cast hsle
          linarith
        have hnum1 : (row.compared_bases_count : ℚ) - (row.consensus_SNPs : ℚ)
            ≤ (row.compared_bases_count : ℚ) := by
          have : (0 : ℚ) ≤ (row.consensus_SNPs : ℚ) := by positivity
          linarith
        constructor
        · rw [← hq']
          exact div_nonneg hnum0 (le_of_lt hposQ)
        · rw [← hq', div_le_one hposQ]
          exact hnum1
      · intro q hq
        rw [hpopA, if_neg hne] at hq
        have hq' : ((row.compared_bases_count : ℚ) - (row.population_SNPs : ℚ))
            / (row.compared_bases_count : ℚ) = q := by injection hq
        have hnum0 : (0 : ℚ) ≤ (row.compared_bases_count : ℚ) - (row.population_SNPs : ℚ) := by
          have : (row.population_SNPs : ℚ) ≤ (row.compared_bases_count : ℚ) := by
            exact_mod_cast hple
          linarith
        have hnum1 : (row.compared_bases_count : ℚ) - (row.population_SNPs : ℚ)
            ≤ (row.compared_bases_count : ℚ) := by
          have : (0 : ℚ) ≤ (row.population_SNPs : ℚ) := by positivity
          linarith
        constructor
        · rw [← hq']
          exact div_nonneg hnum0 (le_of_lt hposQ)
        · rw [← hq', div_le_one hposQ]
          exact hnum1
    · intro hzero
      exact ⟨by rw [hcon, if_pos hzero], by rw [hpopA, if_pos hzero]⟩

theorem comparison_row_ani_witness :
    (([((0 : Nat), (∅ : Finset Nat))].map Prod.fst).Nodup
      ∧ calc_SNP_count_alternate [] [] [(0, ∅)] MinorCol.neither
          (fun _ => 1) (1/20) = .ok [])
    ∧ ∀ row ∈ update_overlap_table "s" [(0, ∅)] [(0, (0 : ℚ))] [] "a" "b" 10,
        row.compared_bases_count = 0 → row.conANI = none ∧ row.popANI = none := by
  refine ⟨⟨by decide, rfl⟩, ?_⟩
  intro row hrow
  exact ((comparison_row_ani [] [] [(0, ∅)] [(0, 0)] MinorCol.neither
    (fun _ => 1) (1/20) "s" "a" "b" 10 [] (by decide) rfl) row hrow).2

/-- C6: calc_cov_ani keeps, per scaffold and sample pair, exactly one row,
one whose mm is highest among that groups rows with mm at most the ceiling;
genome popANI is the compared-base weighted sum of the kept rows popANI
values (a NaN popANI contributes zero to the numerator while its bases
still count in the denominator), reported as absent when the total
compared-base count is zero; genome coverage is that total divided by the
genome length. -/
theorem genome_aggregation (Cdb : List CRow) (bin_length : ℚ) (g_mm : Nat) :
    (∀ r ∈ calc_cov_ani_kept Cdb g_mm,
        r ∈ Cdb ∧ r.mm ≤ g_mm ∧
        ∀ s ∈ Cdb, crowKey s = crowKey r → s.mm ≤ g_mm → s.mm ≤ r.mm)
    ∧ ((calc_cov_ani_kept Cdb g_mm).map crowKey).Nodup
    ∧ (∀ s ∈ Cdb, s.mm ≤ g_mm →
        ∃ r ∈ calc_cov_ani_kept Cdb g_mm, crowKey r = crowKey s)
    ∧ (((calc_cov_ani_kept Cdb g_mm).map (fun r => r.compared_bases_count)).sum = 0 →
        (calc_cov_ani Cdb bin_length g_mm).1 = none)
    ∧ (((calc_cov_ani_kept Cdb g_mm).map (fun r => r.compared_bases_count)).sum ≠ 0 →
        (calc_cov_ani Cdb bin_length g_mm).1
          = some (((calc_cov_ani_kept Cdb g_mm).map (fun r =>
              match r.popANI with
              | some a => a * (r.compared_bases_count : ℚ)
              | none => 0)).sum
            / ((((calc_cov_ani_kept Cdb g_mm).map
                (fun r => r.compared_bases_count)).sum : Nat) : ℚ)))
    ∧ (calc_cov_ani Cdb bin_length g_mm).2
        = ((((calc_cov_ani_kept Cdb g_mm).map
            (fun r => r.compared_bases_count)).sum : Nat) : ℚ) / bin_length := by
  have hperm : List.Perm (List.insertionSort mmLe
      (Cdb.filter (fun r => decide (r.mm ≤ g_mm))))
      (Cdb.filter (fun r => decide (r.mm ≤ g_mm))) :=
    List.perm_insertionSort mmLe _
  have hsorted : (List.insertionSort mmLe
      (Cdb.filter (fun r => decide (r.mm ≤ g_mm)))).Pairwise
      (fun x y => x.mm ≤ y.mm) :=
    List.sorted_insertionSort mmLe _
  refine ⟨?_, keys_nodup_dedupKeepLastBy _ _, ?_, ?_, ?_, ?_⟩
  · intro r hr
    have hrs := mem_of_mem_dedupKeepLastBy _ hr
    have hrf : r ∈ Cdb.filter (fun r => decide (r.mm ≤ g_mm)) := hperm.mem_iff.mp hrs
    obtain ⟨hrC, hrm⟩ := List.mem_filter.mp hrf
    refine ⟨hrC, of_decide_eq_true hrm, ?_⟩
    intro s hs hkey hsm
    have hsf : s ∈ Cdb.filter (fun r => decide (r.mm ≤ g_mm)) :=
      List.mem_filter.mpr ⟨hs, decide_eq_true hsm⟩
    have hss : s ∈ List.insertionSort mmLe (Cdb.filter (fun r => decide (r.mm ≤ g_mm))) :=
      hperm.mem_iff.mpr hsf
    exact dedupKeepLastBy_max crowKey (fun r => r.mm) _ hsorted r hr s hss hkey
  · intro s hs hsm
    have hsf : s ∈ Cdb.filter (fun r => decide (r.mm ≤ g_mm)) :=
      List.mem_filter.mpr ⟨hs, decide_eq_true hsm⟩
    have hss : s ∈ List.insertionSort mmLe (Cdb.filter (fun r => decide (r.mm ≤ g_mm))) :=
      hperm.mem_iff.mpr hsf
    exact exists_key_dedupKeepLastBy _ ⟨s, hss, rfl⟩
  · intro h
    unfold calc_cov_ani
    dsimp only
    rw [if_pos h]
  · intro h
    unfold calc_cov_ani
    dsimp only
    rw [if_neg h]
  · rfl

theorem genome_aggregation_witness :
    (((calc_cov_ani_kept [CRow.mk "sc" "n1" "n2" 2 (some 1) 100,
        CRow.mk "sc" "n1" "n2" 5 (some 1) 200] 100).map
          (fun r => r.compared_bases_count)).sum ≠ 0)
    ∧ (calc_cov_ani [CRow.mk "sc" "n1" "n2" 2 (some 1) 100,
        CRow.mk "sc" "n1" "n2" 5 (some 1) 200] 1000 100).1
      = some (((calc_cov_ani_kept [CRow.mk "sc" "n1" "n2" 2 (some 1) 100,
            CRow.mk "sc" "n1" "n2" 5 (some 1) 200] 100).map (fun r =>
              match r.popANI with
              | some a => a * (r.compared_bases_count : ℚ)
              | none => 0)).sum
          / ((((calc_cov_ani_kept [CRow.mk "sc" "n1" "n2" 2 (some 1) 100,
              CRow.mk "sc" "n1" "n2" 5 (some 1) 200] 100).map
                (fun r => r.compared_bases_count)).sum : Nat) : ℚ)) := by
  have hne : (((calc_cov_ani_kept [CRow.mk "sc" "n1" "n2" 2 (some 1) 100,
      CRow.mk "sc" "n1" "n2" 5 (some 1) 200] 100).map
        (fun r => r.compared_bases_count)).sum ≠ 0) := by decide
  exact ⟨hne, (genome_aggregation [CRow.mk "sc" "n1" "n2" 2 (some 1) 100,
    CRow.mk "sc" "n1" "n2" 5 (some 1) 200] 1000 100).2.2.2.2.1 hne⟩

/-- C3: evaluating the scheduler at a failing input.  When the one
requested scaffolds comparison raises, scaffold_profile_wrapper converts
the error into the Failed marker DataFrame, and compare_scaffolds then
crashes with a KeyError while computing the skipped set (s[3] on the
marker has no column 3) — the scaffold is never retried and no partial
results are returned.  For contrast, the second conjunct shows that when
the same failure is a lost future (swallowed by the bare except of the
first pass), the requested-minus-collected-minus-skipped retry does run
once and the run completes with the retried scaffolds rows. -/
theorem scheduler_failed_marker_crash :
    compare_scaffoldsM ["scaffold_1"] (fun _ => PassOutcome.poison)
        (fun _ => PassOutcome.skip)
      = .error "KeyError: 3"
    ∧ compare_scaffoldsM ["scaffold_1"] (fun _ => PassOutcome.lost)
        (fun _ => PassOutcome.ok
          [OutRow.mk 0 "scaffold_1" "a" "b" 0 0 0 0 0 0 none none] [] [])
      = .ok ([OutRow.mk 0 "scaffold_1" "a" "b" 0 0 0 0 0 0 none none], [],
          [("scaffold_1", [])]) := by
  constructor
  · rfl
  · rfl

/-- C10: with the greedy-clustering flag set, main returns the
not-available result immediately; no comparison table, SNP-location
table, or coverage structure is ever produced, and the greedy_main call
(dead code after the return) is never reached. -/
theorem greedy_mode_returns_immediately (greedy : Bool) (scaffolds : List String)
    (first retry : String → PassOutcome) (hg : greedy = true) :
    mainModel greedy scaffolds first retry = .ok .greedyUnavailable
    ∧ ∀ c m v, mainModel greedy scaffolds first retry ≠ .ok (.stored c m v) := by
  subst hg
  refine ⟨rfl, ?_⟩
  intro c m v h
  simp [mainModel] at h

theorem greedy_mode_returns_immediately_witness :
    (true = true)
    ∧ mainModel true ["scaffold_1"] (fun _ => PassOutcome.lost)
        (fun _ => PassOutcome.lost) = .ok .greedyUnavailable :=
  ⟨rfl, (greedy_mode_returns_immediately true ["scaffold_1"]
    (fun _ => PassOutcome.lost) (fun _ => PassOutcome.lost) rfl).1⟩

end InStrainRC
